import Mathlib

/-!
Verification development for the foraminifera shell-growth model
(`foram.py`): a shallow embedding of the `Chamber` and `Foram` classes
over exact real arithmetic, together with theorems settling the frozen
claims about the growth algorithm.

Floating-point arithmetic in the source is modelled by `ℝ`; `numpy`
division by zero (which yields `nan`) corresponds to Lean's `x / 0 = 0`
convention and is only ever relevant in degenerate coincident-circle
situations that the claims treat explicitly.
-/

namespace Foraminifera

/-- A 2-D vector, as produced by `Vec(x, y)` in the source. -/
@[ext]
structure Pt where
  x : ℝ
  y : ℝ

instance : Add Pt := ⟨fun v w => ⟨v.x + w.x, v.y + w.y⟩⟩

instance : Sub Pt := ⟨fun v w => ⟨v.x - w.x, v.y - w.y⟩⟩

instance : SMul ℝ Pt := ⟨fun t v => ⟨t * v.x, t * v.y⟩⟩

@[simp] lemma Pt.add_x (v w : Pt) : (v + w).x = v.x + w.x := rfl

@[simp] lemma Pt.add_y (v w : Pt) : (v + w).y = v.y + w.y := rfl

@[simp] lemma Pt.sub_x (v w : Pt) : (v - w).x = v.x - w.x := rfl

@[simp] lemma Pt.sub_y (v w : Pt) : (v - w).y = v.y - w.y := rfl

@[simp] lemma Pt.smul_x (t : ℝ) (v : Pt) : (t • v).x = t * v.x := rfl

@[simp] lemma Pt.smul_y (t : ℝ) (v : Pt) : (t • v).y = t * v.y := rfl

/-- Euclidean norm of a 2-D vector: `np.linalg.norm`. -/
noncomputable def pnorm (v : Pt) : ℝ := Real.sqrt (v.x ^ 2 + v.y ^ 2)

/-- A chamber as first constructed by `Chamber.__init__`: radius, centre
and the "in" aperture (`None` for the proloculus). The "out" aperture is
not yet set. -/
@[ext]
structure Chamber0 where
  radius : ℝ
  centre : Pt
  aperture_in : Option Pt

/-- A finalized chamber: a constructed chamber on which
`Chamber.set_aperture_out` has been called, fixing the "out" aperture
and its offset `r = aperture_out - centre`. -/
@[ext]
structure Chamber extends Chamber0 where
  aperture_out : Pt
  r : Pt

/-- `Chamber.set_aperture_out`: record the "out" aperture and the offset
`r = aperture_out - centre`. -/
def set_aperture_out (c : Chamber0) (p : Pt) : Chamber :=
  { toChamber0 := c, aperture_out := p, r := p - c.centre }

/-- Result of `Chamber.intersection`: `disjoint` models the `None`
return (circles do not overlap), `contained` models the raised
`ValueError` (one circle inside the other), and `pts` carries the two
intersection points in the order returned by the source. -/
inductive IntersectResult where
  | disjoint
  | contained
  | pts (p q : Pt)

/-- The local `d` of `Chamber.intersection`: distance between the two
centres, `np.linalg.norm(P1 - P0)`. -/
noncomputable def dCent (selfC otherC : Chamber0) : ℝ :=
  pnorm (otherC.centre - selfC.centre)

/-- The local `a` of `Chamber.intersection`:
`(d**2 + r0**2 - r1**2) / 2 / d`. -/
noncomputable def aChord (selfC otherC : Chamber0) : ℝ :=
  (dCent selfC otherC ^ 2 + selfC.radius ^ 2 - otherC.radius ^ 2) / 2 /
    dCent selfC otherC

/-- The local `h` of `Chamber.intersection`: `np.sqrt(r0**2 - a**2)`. -/
noncomputable def hChord (selfC otherC : Chamber0) : ℝ :=
  Real.sqrt (selfC.radius ^ 2 - aChord selfC otherC ^ 2)

/-- The local `P2` of `Chamber.intersection`: `P0 + a / d * (P1 - P0)`. -/
noncomputable def baseP (selfC otherC : Chamber0) : Pt :=
  selfC.centre + (aChord selfC otherC / dCent selfC otherC) •
    (otherC.centre - selfC.centre)

/-- The local `W` of `Chamber.intersection`:
`h / d * Vec(y0 - y1, x1 - x0)`. -/
noncomputable def wOff (selfC otherC : Chamber0) : Pt :=
  (hChord selfC otherC / dCent selfC otherC) •
    Pt.mk (selfC.centre.y - otherC.centre.y) (otherC.centre.x - selfC.centre.x)

open Classical in
/-- `Chamber.intersection(self, other)`, translated clause by clause from
the source, the locals `d`, `a`, `h`, `P2`, `W` being the definitions
above. Only `centre` and `radius` of the two chambers are read, so it is
defined on `Chamber0`. -/
noncomputable def intersection (selfC otherC : Chamber0) : IntersectResult :=
  if dCent selfC otherC > selfC.radius + otherC.radius then
    .disjoint
  else if dCent selfC otherC < |selfC.radius - otherC.radius| then
    .contained
  else
    .pts (baseP selfC otherC + wOff selfC otherC)
      (baseP selfC otherC - wOff selfC otherC)

/-- 2 × 2 real matrix, for the rotation matrix `self.rot`. -/
@[ext]
structure Mat2 where
  a : ℝ
  b : ℝ
  c : ℝ
  d : ℝ

/-- Matrix-vector product, `self.rot.dot(...)`. -/
def Mat2.mulVec (m : Mat2) (v : Pt) : Pt :=
  ⟨m.a * v.x + m.b * v.y, m.c * v.x + m.d * v.y⟩

/-- The 2-D rotation matrix `((cos θ, -sin θ), (sin θ, cos θ))`. -/
noncomputable def rotMat (θ : ℝ) : Mat2 :=
  ⟨Real.cos θ, -Real.sin θ, Real.sin θ, Real.cos θ⟩

/-- The state of a `Foram` object after `Foram.__init__` (the colour
fields are rendering-only and omitted). -/
structure Foram where
  nchambers : ℕ
  GF : ℝ
  TF : ℝ
  DeltaPhi : ℝ
  rot : Mat2

/-- The proloculus: unit radius, centred at the origin, no "in"
aperture, "out" aperture at `(1, 0)`. -/
def proloculus : Chamber := set_aperture_out ⟨1, ⟨0, 0⟩, none⟩ ⟨1, 0⟩

/-- `Foram.__init__(nchambers, GF, TF, DeltaPhi)`. Note that, exactly as
in the source, the stored `DeltaPhi` is the argument converted to
radians (`np.radians`), while the rotation matrix is built from the raw
`DeltaPhi` argument. -/
noncomputable def mkForam (nchambers : ℕ) (GF TF DeltaPhi : ℝ) : Foram :=
  { nchambers := nchambers
    GF := GF
    TF := TF
    DeltaPhi := DeltaPhi * (Real.pi / 180)
    rot := rotMat DeltaPhi }

/-- `Foram.in_chamber(P)`: `P` is strictly inside some chamber of the
list, with the `0.999` tolerance factor on the radius. -/
def in_chamber (chambersL : List Chamber) (P : Pt) : Prop :=
  ∃ c ∈ chambersL, pnorm (P - c.centre) < c.radius * 0.999

/-- Error outcomes of `Foram.find_aperture_out`: `valueError` is the
`ValueError` propagating from `Chamber.intersection` (one circle inside
another), `indexError` is the `IndexError` from `intersections[0]` when
no candidate point survives. -/
inductive FindErr where
  | valueError
  | indexError
deriving DecidableEq

open Classical in
/-- The point-collection loop of `Foram.find_aperture_out`: walk the
chamber list in order, query `intersection(chamber, new_chamber)`, and
keep each returned point that is not inside any existing chamber. A
`ValueError` from any query aborts the whole collection. -/
noncomputable def collectPoints (allC : List Chamber) (cand : Chamber0) :
    List Chamber → Except FindErr (List Pt)
  | [] => .ok []
  | c :: rest =>
    match intersection c.toChamber0 cand with
    | .disjoint => collectPoints allC cand rest
    | .contained => .error .valueError
    | .pts p q =>
      match collectPoints allC cand rest with
      | .error e => .error e
      | .ok ps =>
        .ok ((if in_chamber allC p then [] else [p]) ++
             (if in_chamber allC q then [] else [q]) ++ ps)

/-- The "in" aperture used as the sort key origin in
`find_aperture_out`; the `none` case never arises there (the candidate
always inherits the previous chamber's "out" aperture; in Python it
would be a `TypeError`). -/
def entryOf (cand : Chamber0) : Pt := cand.aperture_in.getD ⟨0, 0⟩

open Classical in
/-- `intersections.sort(key = ...)`: stable sort by distance from the
"in" aperture, ascending. -/
noncomputable def sortedByEntry (entry : Pt) (ps : List Pt) : List Pt :=
  List.insertionSort (fun p q => pnorm (entry - p) ≤ pnorm (entry - q)) ps

/-- `Foram.find_aperture_out(new_chamber)`: collect the surviving
intersection points against every chamber, sort them by distance from
the "in" aperture and return the closest; `intersections[0]` on an empty
list is the `indexError` outcome. -/
noncomputable def find_aperture_out (chambersL : List Chamber) (cand : Chamber0) :
    Except FindErr Pt :=
  match collectPoints chambersL cand chambersL with
  | .error e => .error e
  | .ok ps =>
    match sortedByEntry (entryOf cand) ps with
    | [] => .error .indexError
    | p :: _ => .ok p

/-- The provisional chamber built at the top of each `make_foram`
iteration: radius `GF * last.radius`, centre
`last.aperture_out + TF * rot @ last.r`, "in" aperture inherited from
`last.aperture_out`. -/
noncomputable def candidateOf (f : Foram) (last : Chamber) : Chamber0 :=
  { radius := f.GF * last.radius
    centre := last.aperture_out + f.TF • f.rot.mulVec last.r
    aperture_in := some last.aperture_out }

/-- One loop body of `Foram.make_foram`: build the candidate, resolve
its "out" aperture, and finalize it. -/
noncomputable def growStep (f : Foram) (chambersL : List Chamber) (last : Chamber) :
    Except FindErr Chamber :=
  match find_aperture_out chambersL (candidateOf f last) with
  | .error e => .error e
  | .ok p => .ok (set_aperture_out (candidateOf f last) p)

/-- Outcome of running the `make_foram` loop: `completed` means the
`for` loop ran through all its iterations, `stopped` means a
`ValueError` broke out of the loop early, `raised` means an uncaught
`IndexError` escaped to the caller. In every case the chamber list held
by the object is recorded. -/
inductive GrowOutcome where
  | completed (chambersL : List Chamber)
  | stopped (chambersL : List Chamber)
  | raised (chambersL : List Chamber)

/-- The chamber list held by the `Foram` object after the loop ends,
whether or not an exception escaped. -/
def chambersOf : GrowOutcome → List Chamber
  | .completed cs => cs
  | .stopped cs => cs
  | .raised cs => cs

/-- The loop `for i in range(1, nchambers)` of `Foram.make_foram`,
starting at iteration `i` with `fuel` iterations left and the current
chamber list `cs`. Each iteration reads `chambers[i-1]`, builds and
resolves the candidate, and either appends it, breaks on `ValueError`,
or lets `IndexError` escape. An out-of-range `chambers[i-1]` would also
be an uncaught `IndexError`. -/
noncomputable def growFrom (f : Foram) : ℕ → ℕ → List Chamber → GrowOutcome
  | 0, _, cs => .completed cs
  | fuel + 1, i, cs =>
    match cs[i - 1]? with
    | none => .raised cs
    | some last =>
      match growStep f cs last with
      | .error .valueError => .stopped cs
      | .error .indexError => .raised cs
      | .ok c => growFrom f fuel (i + 1) (cs ++ [c])

/-- `Foram.make_foram` run on an arbitrary current chamber list (the
loop always starts at `i = 1` and performs `nchambers - 1` iterations,
regardless of the list's current length). -/
noncomputable def make_foram (f : Foram) (cs : List Chamber) : GrowOutcome :=
  growFrom f (f.nchambers - 1) 1 cs

/-- A first call to `Foram.make_foram` on a freshly constructed object,
whose chamber list holds exactly the proloculus. -/
noncomputable def grow (f : Foram) : GrowOutcome :=
  make_foram f [proloculus]

/-! ### Basic facts about `pnorm` -/

lemma pnorm_nonneg (v : Pt) : 0 ≤ pnorm v := Real.sqrt_nonneg _

lemma pnorm_mk (a b : ℝ) : pnorm ⟨a, b⟩ = Real.sqrt (a ^ 2 + b ^ 2) := rfl

lemma pnorm_sq (v : Pt) : pnorm v ^ 2 = v.x ^ 2 + v.y ^ 2 :=
  Real.sq_sqrt (by positivity)

lemma pnorm_xaxis (t : ℝ) : pnorm ⟨t, 0⟩ = |t| := by
  rw [pnorm_mk]
  simp [Real.sqrt_sq_eq_abs]

lemma pnorm_eq_zero {v : Pt} (h : pnorm v = 0) : v.x = 0 ∧ v.y = 0 := by
  have h2 : v.x ^ 2 + v.y ^ 2 ≤ 0 := Real.sqrt_eq_zero'.mp h
  constructor <;> nlinarith [sq_nonneg v.x, sq_nonneg v.y]

/-! ### Branch lemmas for `intersection` -/

lemma intersection_of_disjoint {A B : Chamber0}
    (h : dCent A B > A.radius + B.radius) :
    intersection A B = .disjoint := by
  unfold intersection
  rw [if_pos h]

lemma intersection_of_contained {A B : Chamber0}
    (h1 : ¬ dCent A B > A.radius + B.radius)
    (h2 : dCent A B < |A.radius - B.radius|) :
    intersection A B = .contained := by
  unfold intersection
  rw [if_neg h1, if_pos h2]

lemma intersection_of_pts {A B : Chamber0}
    (h1 : ¬ dCent A B > A.radius + B.radius)
    (h2 : ¬ dCent A B < |A.radius - B.radius|) :
    intersection A B = .pts (baseP A B + wOff A B) (baseP A B - wOff A B) := by
  unfold intersection
  rw [if_neg h1, if_neg h2]

/-- Inversion: a `pts` result implies both guards failed and identifies
the two points with the source formulas. -/
lemma eq_of_intersection_pts {A B : Chamber0} {p q : Pt}
    (h : intersection A B = .pts p q) :
    ¬ dCent A B > A.radius + B.radius ∧
      ¬ dCent A B < |A.radius - B.radius| ∧
      p = baseP A B + wOff A B ∧ q = baseP A B - wOff A B := by
  by_cases h1 : dCent A B > A.radius + B.radius
  · rw [intersection_of_disjoint h1] at h
    exact absurd h (by simp)
  by_cases h2 : dCent A B < |A.radius - B.radius|
  · rw [intersection_of_contained h1 h2] at h
    exact absurd h (by simp)
  rw [intersection_of_pts h1 h2] at h
  injection h with hp hq
  exact ⟨h1, h2, hp.symm, hq.symm⟩

/-- In the degenerate coincident-centre case the source formulas (with
the `x / 0 = 0` convention of `ℝ`) collapse both returned points onto
the first chamber's centre. -/
lemma pts_eq_centre_of_dCent_zero {A B : Chamber0} {p q : Pt}
    (h : intersection A B = .pts p q) (hd : dCent A B = 0) :
    p = A.centre ∧ q = A.centre := by
  obtain ⟨-, -, hp, hq⟩ := eq_of_intersection_pts h
  have hx : (B.centre - A.centre).x = 0 := (pnorm_eq_zero hd).1
  have hy : (B.centre - A.centre).y = 0 := (pnorm_eq_zero hd).2
  have hb : baseP A B = A.centre := by
    unfold baseP
    ext <;> simp [hx, hy]
  have hw : wOff A B = Pt.mk 0 0 := by
    unfold wOff dCent at *
    ext <;> simp at hx hy ⊢ <;> rw [hd] <;> simp
  constructor
  · rw [hp, hb, hw]; ext <;> simp
  · rw [hq, hb, hw]; ext <;> simp

/-! ### The intersection points lie on both circles -/

lemma circle_point_algebra (x0 y0 x1 y1 r1 d a h : ℝ)
    (hd2 : d ^ 2 = (x1 - x0) ^ 2 + (y1 - y0) ^ 2)
    (hdne : d ≠ 0)
    (ha' : a * (2 * d) + r1 ^ 2 = d ^ 2 + (h ^ 2 + a ^ 2)) :
    (x0 + a / d * (x1 - x0) + h / d * (y0 - y1) - x1) ^ 2 +
      (y0 + a / d * (y1 - y0) + h / d * (x1 - x0) - y1) ^ 2 = r1 ^ 2 ∧
    (x0 + a / d * (x1 - x0) - h / d * (y0 - y1) - x1) ^ 2 +
      (y0 + a / d * (y1 - y0) - h / d * (x1 - x0) - y1) ^ 2 = r1 ^ 2 := by
  constructor <;>
  · field_simp
    linear_combination (-((a - d) ^ 2 + h ^ 2)) * hd2 + (-(d ^ 2)) * ha'

lemma r0sq_sub_asq_nonneg {A B : Chamber0}
    (h1 : ¬ dCent A B > A.radius + B.radius)
    (h2 : ¬ dCent A B < |A.radius - B.radius|)
    (hd : dCent A B ≠ 0) :
    0 ≤ A.radius ^ 2 - aChord A B ^ 2 := by
  push_neg at h1 h2
  have hd0 : 0 ≤ dCent A B := pnorm_nonneg _
  have hdpos : 0 < dCent A B := lt_of_le_of_ne hd0 (Ne.symm hd)
  have f1 : dCent A B ^ 2 ≤ (A.radius + B.radius) ^ 2 := by
    have := pow_le_pow_left₀ hd0 h1 2
    exact this
  have f2 : (A.radius - B.radius) ^ 2 ≤ dCent A B ^ 2 := by
    have := pow_le_pow_left₀ (abs_nonneg (A.radius - B.radius)) h2 2
    rwa [sq_abs] at this
  rw [sub_nonneg]
  unfold aChord
  rw [div_div, div_pow, div_le_iff₀ (by positivity)]
  nlinarith [mul_nonneg (sub_nonneg.mpr f1) (sub_nonneg.mpr f2)]

/-- The two points returned in the `pts` case lie exactly on the other
(candidate) chamber's circle, provided the centres are distinct and the
candidate radius is nonnegative. -/
lemma pts_dist_other {A B : Chamber0} {p q : Pt}
    (h : intersection A B = .pts p q)
    (hd : dCent A B ≠ 0) (hr1 : 0 ≤ B.radius) :
    pnorm (p - B.centre) = B.radius ∧ pnorm (q - B.centre) = B.radius := by
  obtain ⟨h1, h2, hp, hq⟩ := eq_of_intersection_pts h
  have hnn := r0sq_sub_asq_nonneg h1 h2 hd
  have hh2 : hChord A B ^ 2 = A.radius ^ 2 - aChord A B ^ 2 :=
    Real.sq_sqrt hnn
  have hd2 : dCent A B ^ 2 =
      (B.centre.x - A.centre.x) ^ 2 + (B.centre.y - A.centre.y) ^ 2 := by
    unfold dCent
    rw [pnorm_sq]
    simp
  have haO : aChord A B * (2 * dCent A B) =
      dCent A B ^ 2 + A.radius ^ 2 - B.radius ^ 2 := by
    unfold aChord
    rw [div_div]
    field_simp
  have ha' : aChord A B * (2 * dCent A B) + B.radius ^ 2 =
      dCent A B ^ 2 + (hChord A B ^ 2 + aChord A B ^ 2) := by
    rw [hh2, haO]
    ring
  have key := circle_point_algebra A.centre.x A.centre.y B.centre.x B.centre.y
    B.radius (dCent A B) (aChord A B) (hChord A B) hd2 hd ha'
  have hpx : (p - B.centre).x =
      A.centre.x + aChord A B / dCent A B * (B.centre.x - A.centre.x) +
        hChord A B / dCent A B * (A.centre.y - B.centre.y) - B.centre.x := by
    rw [hp]
    unfold baseP wOff
    simp
  have hpy : (p - B.centre).y =
      A.centre.y + aChord A B / dCent A B * (B.centre.y - A.centre.y) +
        hChord A B / dCent A B * (B.centre.x - A.centre.x) - B.centre.y := by
    rw [hp]
    unfold baseP wOff
    simp
  have hqx : (q - B.centre).x =
      A.centre.x + aChord A B / dCent A B * (B.centre.x - A.centre.x) -
        hChord A B / dCent A B * (A.centre.y - B.centre.y) - B.centre.x := by
    rw [hq]
    unfold baseP wOff
    simp
  have hqy : (q - B.centre).y =
      A.centre.y + aChord A B / dCent A B * (B.centre.y - A.centre.y) -
        hChord A B / dCent A B * (B.centre.x - A.centre.x) - B.centre.y := by
    rw [hq]
    unfold baseP wOff
    simp
  constructor
  · unfold pnorm
    rw [hpx, hpy]
    rw [key.1]
    exact Real.sqrt_sq hr1
  · unfold pnorm
    rw [hqx, hqy]
    rw [key.2]
    exact Real.sqrt_sq hr1

/-! ### Properties of the point-collection and sorting steps -/

/-- Every collected point survived the containment filter and is one of
the two intersection points contributed by some chamber of the list. -/
lemma mem_of_collectPoints {allC : List Chamber} {cand : Chamber0} :
    ∀ {l : List Chamber} {ps : List Pt},
      collectPoints allC cand l = .ok ps → ∀ p ∈ ps,
        ¬ in_chamber allC p ∧
          ∃ c ∈ l, ∃ p' q', intersection c.toChamber0 cand = .pts p' q' ∧
            (p = p' ∨ p = q') := by
  intro l
  induction l with
  | nil =>
    intro ps h p hp
    simp only [collectPoints] at h
    injection h with h
    rw [← h] at hp
    simp at hp
  | cons c rest ih =>
    intro ps h p hp
    simp only [collectPoints] at h
    rcases hi : intersection c.toChamber0 cand with _ | _ | ⟨p', q'⟩
    · rw [hi] at h
      obtain ⟨hnot, c', hc', hpts⟩ := ih h p hp
      exact ⟨hnot, c', List.mem_cons_of_mem _ hc', hpts⟩
    · rw [hi] at h
      exact absurd h (by simp)
    · rw [hi] at h
      rcases hr : collectPoints allC cand rest with e | ps'
      · rw [hr] at h
        exact absurd h (by simp)
      · rw [hr] at h
        injection h with h
        rw [← h] at hp
        simp only [List.mem_append] at hp
        rcases hp with (hp | hp) | hp
        · by_cases hin : in_chamber allC p'
          · rw [if_pos hin] at hp
            simp at hp
          · rw [if_neg hin] at hp
            simp at hp
            rw [hp]
            exact ⟨hin, c, List.mem_cons_self _ _, p', q', hi, Or.inl rfl⟩
        · by_cases hin : in_chamber allC q'
          · rw [if_pos hin] at hp
            simp at hp
          · rw [if_neg hin] at hp
            simp at hp
            rw [hp]
            exact ⟨hin, c, List.mem_cons_self _ _, p', q', hi, Or.inr rfl⟩
        · obtain ⟨hnot, c', hc', hpts⟩ := ih hr p hp
          exact ⟨hnot, c', List.mem_cons_of_mem _ hc', hpts⟩

/-- Conversely, every intersection point that survives the containment
filter is collected. -/
lemma collectPoints_complete {allC : List Chamber} {cand : Chamber0} :
    ∀ {l : List Chamber} {ps : List Pt},
      collectPoints allC cand l = .ok ps →
        ∀ c ∈ l, ∀ p' q', intersection c.toChamber0 cand = .pts p' q' →
          (¬ in_chamber allC p' → p' ∈ ps) ∧ (¬ in_chamber allC q' → q' ∈ ps) := by
  intro l
  induction l with
  | nil =>
    intro ps _ c hc
    simp at hc
  | cons c0 rest ih =>
    intro ps h c hc p' q' hi
    simp only [collectPoints] at h
    rcases List.mem_cons.mp hc with rfl | hc
    · rw [hi] at h
      rcases hr : collectPoints allC cand rest with e | ps'
      · rw [hr] at h
        exact absurd h (by simp)
      · rw [hr] at h
        injection h with h
        constructor
        · intro hnot
          rw [← h]
          simp [if_neg hnot]
        · intro hnot
          rw [← h]
          simp [if_neg hnot]
    · rcases hi0 : intersection c0.toChamber0 cand with _ | _ | ⟨p0, q0⟩
      · rw [hi0] at h
        exact ih h c hc p' q' hi
      · rw [hi0] at h
        exact absurd h (by simp)
      · rw [hi0] at h
        rcases hr : collectPoints allC cand rest with e | ps'
        · rw [hr] at h
          exact absurd h (by simp)
        · rw [hr] at h
          injection h with h
          have := ih hr c hc p' q' hi
          constructor
          · intro hnot
            rw [← h]
            simp only [List.mem_append]
            exact Or.inr (this.1 hnot)
          · intro hnot
            rw [← h]
            simp only [List.mem_append]
            exact Or.inr (this.2 hnot)

/-- If any chamber of the list reports containment, the whole collection
aborts with the `ValueError` outcome. -/
lemma collectPoints_contained {allC : List Chamber} {cand : Chamber0} :
    ∀ {l : List Chamber}, (∃ c ∈ l, intersection c.toChamber0 cand = .contained) →
      collectPoints allC cand l = .error .valueError := by
  intro l
  induction l with
  | nil =>
    intro h
    simp at h
  | cons c0 rest ih =>
    intro h
    simp only [collectPoints]
    rcases hi0 : intersection c0.toChamber0 cand with _ | _ | ⟨p0, q0⟩
    · apply ih
      obtain ⟨c, hc, hcont⟩ := h
      rcases List.mem_cons.mp hc with rfl | hc
      · rw [hi0] at hcont
        exact absurd hcont (by simp)
      · exact ⟨c, hc, hcont⟩
    · rfl
    · have hrest : ∃ c ∈ rest, intersection c.toChamber0 cand = .contained := by
        obtain ⟨c, hc, hcont⟩ := h
        rcases List.mem_cons.mp hc with rfl | hc
        · rw [hi0] at hcont
          exact absurd hcont (by simp)
        · exact ⟨c, hc, hcont⟩
      rw [ih hrest]

/-- The head of the sorted candidate list is a member of the original
list and minimizes the distance to the entry point. -/
lemma sortedByEntry_head {e : Pt} {ps : List Pt} {p : Pt} {tl : List Pt}
    (h : sortedByEntry e ps = p :: tl) :
    p ∈ ps ∧ ∀ q ∈ ps, pnorm (e - p) ≤ pnorm (e - q) := by
  classical
  have hperm : List.Perm (sortedByEntry e ps) ps := List.perm_insertionSort _ ps
  have hmem : p ∈ ps := hperm.mem_iff.mp (by rw [h]; exact List.mem_cons_self _ _)
  refine ⟨hmem, fun q hq => ?_⟩
  have hsorted : List.Sorted (fun p q => pnorm (e - p) ≤ pnorm (e - q))
      (sortedByEntry e ps) := by
    letI : IsTotal Pt (fun p q => pnorm (e - p) ≤ pnorm (e - q)) :=
      ⟨fun a b => le_total _ _⟩
    letI : IsTrans Pt (fun p q => pnorm (e - p) ≤ pnorm (e - q)) :=
      ⟨fun a b c hab hbc => le_trans hab hbc⟩
    exact List.sorted_insertionSort _ ps
  rw [h] at hsorted
  have hq' : q ∈ p :: tl := by
    rw [← h]
    exact hperm.mem_iff.mpr hq
  rcases List.mem_cons.mp hq' with rfl | hq'
  · exact le_refl _
  · exact (List.sorted_cons.mp hsorted).1 q hq'

/-! ### Unpacking `find_aperture_out`, `growStep` and `growFrom` -/

/-- A successful aperture resolution returns the collected-survivor
closest to the entry point. -/
lemma find_aperture_out_ok {chambersL : List Chamber} {cand : Chamber0} {p : Pt}
    (h : find_aperture_out chambersL cand = .ok p) :
    ∃ ps, collectPoints chambersL cand chambersL = .ok ps ∧ p ∈ ps ∧
      ∀ q ∈ ps, pnorm (entryOf cand - p) ≤ pnorm (entryOf cand - q) := by
  unfold find_aperture_out at h
  rcases hc : collectPoints chambersL cand chambersL with e | ps
  · rw [hc] at h
    exact absurd h (by simp)
  · rw [hc] at h
    dsimp only at h
    rcases hs : sortedByEntry (entryOf cand) ps with _ | ⟨p0, tl⟩
    · rw [hs] at h
      exact absurd h (by simp)
    · rw [hs] at h
      injection h with h
      subst h
      obtain ⟨hm, hmin⟩ := sortedByEntry_head hs
      exact ⟨ps, rfl, hm, hmin⟩

/-- If some existing chamber reports containment, aperture resolution
fails with the `ValueError` outcome. -/
lemma find_aperture_out_contained {chambersL : List Chamber} {cand : Chamber0}
    (h : ∃ c ∈ chambersL, intersection c.toChamber0 cand = .contained) :
    find_aperture_out chambersL cand = .error .valueError := by
  unfold find_aperture_out
  rw [collectPoints_contained h]

/-- Unpacking a successful growth step: the appended chamber is the
candidate finalized with the resolved aperture. -/
lemma growStep_ok_inv {f : Foram} {cs : List Chamber} {last c : Chamber}
    (h : growStep f cs last = .ok c) :
    ∃ p, find_aperture_out cs (candidateOf f last) = .ok p ∧
      c = set_aperture_out (candidateOf f last) p := by
  unfold growStep at h
  rcases hf : find_aperture_out cs (candidateOf f last) with e | p
  · rw [hf] at h
    exact absurd h (by simp)
  · rw [hf] at h
    injection h with h
    exact ⟨p, rfl, h.symm⟩

/-- A `ValueError` at the current step breaks out of the loop, leaving
the chamber list as it is. -/
lemma growFrom_stopped {f : Foram} {fuel i : ℕ} {cs : List Chamber} {last : Chamber}
    (hlast : cs[i - 1]? = some last)
    (hcont : ∃ c ∈ cs, intersection c.toChamber0 (candidateOf f last) = .contained) :
    growFrom f (fuel + 1) i cs = .stopped cs := by
  have hstep : growStep f cs last = .error .valueError := by
    unfold growStep
    rw [find_aperture_out_contained hcont]
  simp only [growFrom]
  rw [hlast]
  dsimp only
  rw [hstep]

/-- An `IndexError` at the current step escapes the loop, leaving the
chamber list as it is. -/
lemma growFrom_raised {f : Foram} {fuel i : ℕ} {cs : List Chamber} (last : Chamber)
    (hlast : cs[i - 1]? = some last)
    (hfind : find_aperture_out cs (candidateOf f last) = .error .indexError) :
    growFrom f (fuel + 1) i cs = .raised cs := by
  have hstep : growStep f cs last = .error .indexError := by
    unfold growStep
    rw [hfind]
  simp only [growFrom]
  rw [hlast]
  dsimp only
  rw [hstep]

/-- The loop only ever appends chambers: whatever the outcome, the
starting list is an initial segment of the final list. -/
lemma growFrom_extends (f : Foram) :
    ∀ (fuel i : ℕ) (cs : List Chamber),
      ∃ tl, chambersOf (growFrom f fuel i cs) = cs ++ tl := by
  intro fuel
  induction fuel with
  | zero =>
    intro i cs
    exact ⟨[], by simp [growFrom, chambersOf]⟩
  | succ n ih =>
    intro i cs
    simp only [growFrom]
    rcases hlast : cs[i - 1]? with _ | last
    · exact ⟨[], by simp [chambersOf]⟩
    · dsimp only
      rcases hstep : growStep f cs last with e | c
      · rcases e with _ | _
        · exact ⟨[], by simp [chambersOf]⟩
        · exact ⟨[], by simp [chambersOf]⟩
      · obtain ⟨tl, htl⟩ := ih (i + 1) (cs ++ [c])
        refine ⟨c :: tl, ?_⟩
        dsimp only
        rw [htl]
        simp

/-! ### The growth invariant -/

/-- The exit aperture lies exactly on the chamber's own circle. -/
def exitOnCircle (c : Chamber) : Prop :=
  pnorm (c.aperture_out - c.centre) = c.radius

/-- `later`'s exit aperture is not strictly inside `earlier`'s open
interior, up to the `0.999` tolerance factor. -/
def clearOf (earlier later : Chamber) : Prop :=
  earlier.radius * 0.999 ≤ pnorm (later.aperture_out - earlier.centre)

lemma pnorm_sub_self (v : Pt) : pnorm (v - v) = 0 := by
  unfold pnorm
  simp

/-- A successfully appended chamber has positive radius, its exit point
exactly on its own circle, and its exit point clear of every chamber
that existed when it was placed. -/
lemma growStep_preserves {f : Foram} {cs : List Chamber} {last c : Chamber}
    (hGF : 0 < f.GF) (hlastpos : 0 < last.radius)
    (hpos : ∀ c' ∈ cs, 0 < c'.radius)
    (h : growStep f cs last = .ok c) :
    0 < c.radius ∧ exitOnCircle c ∧ ∀ c' ∈ cs, clearOf c' c := by
  obtain ⟨p, hfind, hc⟩ := growStep_ok_inv h
  obtain ⟨ps, hcol, hmem, -⟩ := find_aperture_out_ok hfind
  obtain ⟨hnotin, cj, hcj, p', q', hi, hpq⟩ := mem_of_collectPoints hcol p hmem
  have hr1 : 0 < (candidateOf f last).radius := mul_pos hGF hlastpos
  have hd : dCent cj.toChamber0 (candidateOf f last) ≠ 0 := by
    intro hd0
    obtain ⟨hp', hq'⟩ := pts_eq_centre_of_dCent_zero hi hd0
    have hpc : p = cj.centre := by
      rcases hpq with rfl | rfl
      · exact hp'
      · exact hq'
    apply hnotin
    refine ⟨cj, hcj, ?_⟩
    rw [hpc, pnorm_sub_self]
    exact mul_pos (hpos cj hcj) (by norm_num)
  have hdist := pts_dist_other hi hd (le_of_lt hr1)
  have hexit : pnorm (p - (candidateOf f last).centre) = (candidateOf f last).radius := by
    rcases hpq with rfl | rfl
    · exact hdist.1
    · exact hdist.2
  subst hc
  refine ⟨hr1, hexit, fun c' hc' => ?_⟩
  unfold clearOf
  unfold in_chamber at hnotin
  push_neg at hnotin
  exact hnotin c' hc'

/-- The growth loop preserves the invariant: all chambers have positive
radius, exit points on their own circles, and exit points clear of all
earlier chambers. -/
lemma growFrom_inv {f : Foram} (hGF : 0 < f.GF) :
    ∀ (fuel i : ℕ) (cs : List Chamber),
      (∀ c ∈ cs, 0 < c.radius ∧ exitOnCircle c) → cs.Pairwise clearOf →
        (∀ c ∈ chambersOf (growFrom f fuel i cs), 0 < c.radius ∧ exitOnCircle c) ∧
          (chambersOf (growFrom f fuel i cs)).Pairwise clearOf := by
  intro fuel
  induction fuel with
  | zero =>
    intro i cs h1 h2
    exact ⟨by simpa [growFrom, chambersOf] using h1,
      by simpa [growFrom, chambersOf] using h2⟩
  | succ n ih =>
    intro i cs h1 h2
    simp only [growFrom]
    rcases hlast : cs[i - 1]? with _ | last
    · exact ⟨by simpa [chambersOf] using h1, by simpa [chambersOf] using h2⟩
    · dsimp only
      rcases hstep : growStep f cs last with e | c
      · rcases e with _ | _
        · exact ⟨by simpa [chambersOf] using h1, by simpa [chambersOf] using h2⟩
        · exact ⟨by simpa [chambersOf] using h1, by simpa [chambersOf] using h2⟩
      · have hlastmem : last ∈ cs := by
          obtain ⟨hlt, heq⟩ := List.getElem?_eq_some.mp hlast
          rw [← heq]
          exact List.getElem_mem hlt
        have hstep' := growStep_preserves hGF (h1 last hlastmem).1
          (fun c' hc' => (h1 c' hc').1) hstep
        apply ih (i + 1) (cs ++ [c])
        · intro c' hc'
          rcases List.mem_append.mp hc' with hc' | hc'
          · exact h1 c' hc'
          · simp at hc'
            subst hc'
            exact ⟨hstep'.1, hstep'.2.1⟩
        · rw [List.pairwise_append]
          refine ⟨h2, List.pairwise_singleton _ _, fun a ha b hb => ?_⟩
          simp at hb
          subst hb
          exact hstep'.2.2 a ha

/-- Chamber counts through the loop: starting at iteration `i` with `i`
chambers and `fuel` iterations left, a completed run ends with exactly
`i + fuel` chambers and an early end (break or escape) with fewer. -/
lemma growFrom_length (f : Foram) :
    ∀ (fuel i : ℕ) (cs : List Chamber), cs.length = i → 1 ≤ i →
      (∀ L, growFrom f fuel i cs = .completed L → L.length = i + fuel) ∧
        (∀ L, growFrom f fuel i cs = .stopped L → L.length < i + fuel) ∧
        (∀ L, growFrom f fuel i cs = .raised L → L.length < i + fuel) := by
  intro fuel
  induction fuel with
  | zero =>
    intro i cs hlen hi
    refine ⟨fun L hL => ?_, fun L hL => ?_, fun L hL => ?_⟩
    · simp only [growFrom] at hL
      injection hL with hL
      rw [← hL, hlen]
      omega
    · exact absurd hL (by simp [growFrom])
    · exact absurd hL (by simp [growFrom])
  | succ n ih =>
    intro i cs hlen hi
    have hbound : i - 1 < cs.length := by omega
    have hsome : cs[i - 1]? = some cs[i - 1] :=
      List.getElem?_eq_getElem hbound
    simp only [growFrom]
    rw [hsome]
    dsimp only
    rcases hstep : growStep f cs cs[i - 1] with e | c
    · rcases e with _ | _
      · refine ⟨fun L hL => ?_, fun L hL => ?_, fun L hL => ?_⟩
        · exact absurd hL (by simp)
        · injection hL with hL
          rw [← hL, hlen]
          omega
        · exact absurd hL (by simp)
      · refine ⟨fun L hL => ?_, fun L hL => ?_, fun L hL => ?_⟩
        · exact absurd hL (by simp)
        · exact absurd hL (by simp)
        · injection hL with hL
          rw [← hL, hlen]
          omega
    · have hlen' : (cs ++ [c]).length = i + 1 := by
        simp [hlen]
      have := ih (i + 1) (cs ++ [c]) hlen' (by omega)
      refine ⟨fun L hL => ?_, fun L hL => ?_, fun L hL => ?_⟩
      · have := this.1 L hL
        omega
      · have := this.2.1 L hL
        omega
      · have := this.2.2 L hL
        omega

/-! ### Concrete evaluation helpers -/

lemma pnorm_sub_xaxis (a b : ℝ) : pnorm (Pt.mk a 0 - Pt.mk b 0) = |a - b| := by
  have h : Pt.mk a 0 - Pt.mk b 0 = Pt.mk (a - b) 0 := by
    ext <;> simp
  rw [h, pnorm_xaxis]

/-- Evaluation of `intersection` in the two-point case for two circles
centred on the x-axis, given numeric values for the locals. -/
lemma intersection_xaxis (A B : Chamber0) (x0 x1 r0 r1 dv av hv : ℝ)
    (hA : A.centre = ⟨x0, 0⟩) (hB : B.centre = ⟨x1, 0⟩)
    (hr0 : A.radius = r0) (hr1 : B.radius = r1)
    (hdv : |x1 - x0| = dv)
    (h1 : ¬ dv > r0 + r1) (h2 : ¬ dv < |r0 - r1|)
    (hav : (dv ^ 2 + r0 ^ 2 - r1 ^ 2) / 2 / dv = av)
    (hhv : Real.sqrt (r0 ^ 2 - av ^ 2) = hv) :
    intersection A B =
      .pts ⟨x0 + av / dv * (x1 - x0), hv / dv * (x1 - x0)⟩
        ⟨x0 + av / dv * (x1 - x0), -(hv / dv * (x1 - x0))⟩ := by
  have hd : dCent A B = dv := by
    unfold dCent
    rw [hA, hB, pnorm_sub_xaxis, hdv]
  have ha : aChord A B = av := by
    unfold aChord
    rw [hd, hr0, hr1, hav]
  have hh : hChord A B = hv := by
    unfold hChord
    rw [ha, hr0, hhv]
  have hbase : baseP A B = ⟨x0 + av / dv * (x1 - x0), 0⟩ := by
    unfold baseP
    rw [ha, hd, hA, hB]
    ext <;> simp
  have hw : wOff A B = ⟨0, hv / dv * (x1 - x0)⟩ := by
    unfold wOff
    rw [hh, hd, hA, hB]
    ext <;> simp
  have h1' : ¬ dCent A B > A.radius + B.radius := by
    rw [hd, hr0, hr1]
    exact h1
  have h2' : ¬ dCent A B < |A.radius - B.radius| := by
    rw [hd, hr0, hr1]
    exact h2
  rw [intersection_of_pts h1' h2', hbase, hw]
  congr 1 <;> ext <;> simp

/-- Evaluation of `intersection` in the containment (`ValueError`) case
for two circles centred on the x-axis. -/
lemma intersection_xaxis_contained (A B : Chamber0) (x0 x1 r0 r1 dv : ℝ)
    (hA : A.centre = ⟨x0, 0⟩) (hB : B.centre = ⟨x1, 0⟩)
    (hr0 : A.radius = r0) (hr1 : B.radius = r1)
    (hdv : |x1 - x0| = dv)
    (h1 : ¬ dv > r0 + r1) (h2 : dv < |r0 - r1|) :
    intersection A B = .contained := by
  have hd : dCent A B = dv := by
    unfold dCent
    rw [hA, hB, pnorm_sub_xaxis, hdv]
  apply intersection_of_contained
  · rw [hd, hr0, hr1]
    exact h1
  · rw [hd, hr0, hr1]
    exact h2

/-- Evaluation of `intersection` in the disjoint (`None`) case for two
circles centred on the x-axis. -/
lemma intersection_xaxis_disjoint (A B : Chamber0) (x0 x1 r0 r1 dv : ℝ)
    (hA : A.centre = ⟨x0, 0⟩) (hB : B.centre = ⟨x1, 0⟩)
    (hr0 : A.radius = r0) (hr1 : B.radius = r1)
    (hdv : |x1 - x0| = dv)
    (h1 : dv > r0 + r1) :
    intersection A B = .disjoint := by
  have hd : dCent A B = dv := by
    unfold dCent
    rw [hA, hB, pnorm_sub_xaxis, hdv]
  apply intersection_of_disjoint
  rw [hd, hr0, hr1]
  exact h1

lemma sortedByEntry_nil (e : Pt) : sortedByEntry e [] = [] := rfl

lemma sortedByEntry_pair (e p : Pt) : sortedByEntry e [p, p] = [p, p] := by
  unfold sortedByEntry
  simp [List.insertionSort, List.orderedInsert]

lemma rotMat_zero_mulVec (v : Pt) : (rotMat 0).mulVec v = v := by
  unfold rotMat Mat2.mulVec
  ext <;> simp

lemma proloculus_centre : proloculus.centre = ⟨0, 0⟩ := rfl

lemma proloculus_radius : proloculus.radius = 1 := rfl

lemma proloculus_aperture_out : proloculus.aperture_out = ⟨1, 0⟩ := rfl

lemma proloculus_r : proloculus.r = ⟨1, 0⟩ := by
  unfold proloculus set_aperture_out
  ext <;> simp

/-! ### Concrete run: `Foram(2, 1, 1, 0)` (one successful step) -/

lemma mkForam_GF (n : ℕ) (GF TF D : ℝ) : (mkForam n GF TF D).GF = GF := rfl

lemma mkForam_TF (n : ℕ) (GF TF D : ℝ) : (mkForam n GF TF D).TF = TF := rfl

lemma mkForam_rot (n : ℕ) (GF TF D : ℝ) : (mkForam n GF TF D).rot = rotMat D := rfl

lemma mkForam_nchambers (n : ℕ) (GF TF D : ℝ) :
    (mkForam n GF TF D).nchambers = n := rfl

lemma mkForam_DeltaPhi (n : ℕ) (GF TF D : ℝ) :
    (mkForam n GF TF D).DeltaPhi = D * (Real.pi / 180) := rfl

lemma cand_run2 :
    candidateOf (mkForam 2 1 1 0) proloculus = ⟨1, ⟨2, 0⟩, some ⟨1, 0⟩⟩ := by
  unfold candidateOf
  rw [mkForam_GF, mkForam_TF, mkForam_rot, rotMat_zero_mulVec, proloculus_r,
    proloculus_radius, proloculus_aperture_out]
  refine Chamber0.ext ?_ ?_ ?_
  · norm_num
  · ext <;> norm_num
  · rfl

lemma inter_run2 :
    intersection proloculus.toChamber0 ⟨1, ⟨2, 0⟩, some ⟨1, 0⟩⟩ =
      .pts ⟨1, 0⟩ ⟨1, 0⟩ := by
  have h := intersection_xaxis proloculus.toChamber0
    ⟨1, ⟨2, 0⟩, some ⟨1, 0⟩⟩ 0 2 1 1 2 1 0 rfl rfl rfl rfl (by norm_num)
    (by norm_num) (by norm_num) (by norm_num)
    (by rw [show (1 : ℝ) ^ 2 - 1 ^ 2 = 0 by norm_num]; exact Real.sqrt_zero)
  rw [h]
  congr 1 <;> ext <;> norm_num

lemma not_in_chamber_run2 : ¬ in_chamber [proloculus] ⟨1, 0⟩ := by
  unfold in_chamber
  simp only [List.mem_singleton, exists_eq_left, proloculus_centre,
    proloculus_radius]
  rw [pnorm_sub_xaxis]
  norm_num

lemma collect_run2 :
    collectPoints [proloculus] ⟨1, ⟨2, 0⟩, some ⟨1, 0⟩⟩ [proloculus] =
      .ok [⟨1, 0⟩, ⟨1, 0⟩] := by
  simp only [collectPoints]
  rw [inter_run2]
  simp [if_neg not_in_chamber_run2]

lemma find_run2 :
    find_aperture_out [proloculus] ⟨1, ⟨2, 0⟩, some ⟨1, 0⟩⟩ = .ok ⟨1, 0⟩ := by
  unfold find_aperture_out
  rw [collect_run2]
  dsimp only
  rw [show entryOf ⟨1, ⟨2, 0⟩, some ⟨1, 0⟩⟩ = (⟨1, 0⟩ : Pt) from rfl]
  rw [sortedByEntry_pair]

lemma step_run2 :
    growStep (mkForam 2 1 1 0) [proloculus] proloculus =
      .ok (set_aperture_out ⟨1, ⟨2, 0⟩, some ⟨1, 0⟩⟩ ⟨1, 0⟩) := by
  unfold growStep
  rw [cand_run2, find_run2]

lemma grow_run2 :
    grow (mkForam 2 1 1 0) =
      .completed [proloculus, set_aperture_out ⟨1, ⟨2, 0⟩, some ⟨1, 0⟩⟩ ⟨1, 0⟩] := by
  unfold grow make_foram
  rw [show (mkForam 2 1 1 0).nchambers - 1 = 1 from rfl]
  simp only [growFrom]
  rw [show ([proloculus] : List Chamber)[1 - 1]? = some proloculus from rfl]
  dsimp only
  rw [step_run2]
  dsimp only
  simp [growFrom]

/-! ### Membership shapes of `in_chamber` for small lists -/

lemma in_chamber_single (A : Chamber) (P : Pt) :
    in_chamber [A] P ↔ pnorm (P - A.centre) < A.radius * 0.999 := by
  unfold in_chamber
  simp

lemma in_chamber_pair (A B : Chamber) (P : Pt) :
    in_chamber [A, B] P ↔ pnorm (P - A.centre) < A.radius * 0.999 ∨
      pnorm (P - B.centre) < B.radius * 0.999 := by
  unfold in_chamber
  constructor
  · rintro ⟨c, hc, hlt⟩
    rcases List.mem_cons.mp hc with rfl | hc
    · exact Or.inl hlt
    · rcases List.mem_cons.mp hc with rfl | hc
      · exact Or.inr hlt
      · simp at hc
  · rintro (h | h)
    · exact ⟨A, by simp, h⟩
    · exact ⟨B, by simp, h⟩

/-! ### Concrete run: `Foram(2, 10, 0, 0)` (infeasible at step 1) -/

lemma cand_run1 :
    candidateOf (mkForam 2 10 0 0) proloculus = ⟨10, ⟨1, 0⟩, some ⟨1, 0⟩⟩ := by
  unfold candidateOf
  rw [mkForam_GF, mkForam_TF, mkForam_rot, rotMat_zero_mulVec, proloculus_r,
    proloculus_radius, proloculus_aperture_out]
  refine Chamber0.ext ?_ ?_ ?_
  · norm_num
  · ext <;> simp
  · rfl

lemma inter_run1 :
    intersection proloculus.toChamber0 ⟨10, ⟨1, 0⟩, some ⟨1, 0⟩⟩ = .contained := by
  exact intersection_xaxis_contained proloculus.toChamber0
    ⟨10, ⟨1, 0⟩, some ⟨1, 0⟩⟩ 0 1 1 10 1 rfl rfl rfl rfl (by norm_num)
    (by norm_num) (by norm_num)

/-! ### Concrete run: `Foram(2, 1, 3, 0)` (no intersection, IndexError) -/

lemma cand_run4 :
    candidateOf (mkForam 2 1 3 0) proloculus = ⟨1, ⟨4, 0⟩, some ⟨1, 0⟩⟩ := by
  unfold candidateOf
  rw [mkForam_GF, mkForam_TF, mkForam_rot, rotMat_zero_mulVec, proloculus_r,
    proloculus_radius, proloculus_aperture_out]
  refine Chamber0.ext ?_ ?_ ?_
  · norm_num
  · ext <;> norm_num
  · rfl

lemma inter_run4 :
    intersection proloculus.toChamber0 ⟨1, ⟨4, 0⟩, some ⟨1, 0⟩⟩ = .disjoint := by
  exact intersection_xaxis_disjoint proloculus.toChamber0
    ⟨1, ⟨4, 0⟩, some ⟨1, 0⟩⟩ 0 4 1 1 4 rfl rfl rfl rfl (by norm_num)
    (by norm_num)

lemma collect_run4 :
    collectPoints [proloculus] ⟨1, ⟨4, 0⟩, some ⟨1, 0⟩⟩ [proloculus] = .ok [] := by
  simp only [collectPoints]
  rw [inter_run4]

lemma find_run4 :
    find_aperture_out [proloculus] ⟨1, ⟨4, 0⟩, some ⟨1, 0⟩⟩ =
      .error .indexError := by
  unfold find_aperture_out
  rw [collect_run4]
  dsimp only
  rw [sortedByEntry_nil]

/-! ### Concrete run: `Foram(2, 2, 0, 0)` (completes; chamber 1 swallows
the proloculus exit aperture) -/

lemma cand_run5 :
    candidateOf (mkForam 2 2 0 0) proloculus = ⟨2, ⟨1, 0⟩, some ⟨1, 0⟩⟩ := by
  unfold candidateOf
  rw [mkForam_GF, mkForam_TF, mkForam_rot, rotMat_zero_mulVec, proloculus_r,
    proloculus_radius, proloculus_aperture_out]
  refine Chamber0.ext ?_ ?_ ?_
  · norm_num
  · ext <;> simp
  · rfl

lemma inter_run5 :
    intersection proloculus.toChamber0 ⟨2, ⟨1, 0⟩, some ⟨1, 0⟩⟩ =
      .pts ⟨-1, 0⟩ ⟨-1, 0⟩ := by
  have h := intersection_xaxis proloculus.toChamber0
    ⟨2, ⟨1, 0⟩, some ⟨1, 0⟩⟩ 0 1 1 2 1 (-1) 0 rfl rfl rfl rfl (by norm_num)
    (by norm_num) (by norm_num) (by norm_num)
    (by rw [show (1 : ℝ) ^ 2 - (-1 : ℝ) ^ 2 = 0 by norm_num]; exact Real.sqrt_zero)
  rw [h]
  congr 1 <;> ext <;> norm_num

lemma not_in_chamber_run5 : ¬ in_chamber [proloculus] ⟨-1, 0⟩ := by
  rw [in_chamber_single, proloculus_centre, proloculus_radius, pnorm_sub_xaxis]
  norm_num

lemma collect_run5 :
    collectPoints [proloculus] ⟨2, ⟨1, 0⟩, some ⟨1, 0⟩⟩ [proloculus] =
      .ok [⟨-1, 0⟩, ⟨-1, 0⟩] := by
  simp only [collectPoints]
  rw [inter_run5]
  simp [if_neg not_in_chamber_run5]

lemma find_run5 :
    find_aperture_out [proloculus] ⟨2, ⟨1, 0⟩, some ⟨1, 0⟩⟩ = .ok ⟨-1, 0⟩ := by
  unfold find_aperture_out
  rw [collect_run5]
  dsimp only
  rw [show entryOf ⟨2, ⟨1, 0⟩, some ⟨1, 0⟩⟩ = (⟨1, 0⟩ : Pt) from rfl]
  rw [sortedByEntry_pair]

lemma step_run5 :
    growStep (mkForam 2 2 0 0) [proloculus] proloculus =
      .ok (set_aperture_out ⟨2, ⟨1, 0⟩, some ⟨1, 0⟩⟩ ⟨-1, 0⟩) := by
  unfold growStep
  rw [cand_run5, find_run5]

lemma grow_run5 :
    grow (mkForam 2 2 0 0) =
      .completed [proloculus, set_aperture_out ⟨2, ⟨1, 0⟩, some ⟨1, 0⟩⟩ ⟨-1, 0⟩] := by
  unfold grow make_foram
  rw [show (mkForam 2 2 0 0).nchambers - 1 = 1 from rfl]
  simp only [growFrom]
  rw [show ([proloculus] : List Chamber)[1 - 1]? = some proloculus from rfl]
  dsimp only
  rw [step_run5]
  dsimp only
  simp [growFrom]

/-! ### Concrete run: a second `make_foram` call on the grown
`Foram(2, 1, 1, 0)` list appends a third chamber -/

lemma inter_c1_run3 :
    intersection (set_aperture_out ⟨1, ⟨2, 0⟩, some ⟨1, 0⟩⟩ ⟨1, 0⟩).toChamber0
      ⟨1, ⟨2, 0⟩, some ⟨1, 0⟩⟩ = .pts ⟨2, 0⟩ ⟨2, 0⟩ := by
  have h := intersection_xaxis
    (set_aperture_out ⟨1, ⟨2, 0⟩, some ⟨1, 0⟩⟩ ⟨1, 0⟩).toChamber0
    ⟨1, ⟨2, 0⟩, some ⟨1, 0⟩⟩ 2 2 1 1 0 0 1 rfl rfl rfl rfl (by norm_num)
    (by norm_num) (by norm_num) (by norm_num)
    (by rw [show (1 : ℝ) ^ 2 - (0 : ℝ) ^ 2 = 1 by norm_num]; exact Real.sqrt_one)
  rw [h]
  congr 1 <;> ext <;> norm_num

lemma not_in_pair_run3 :
    ¬ in_chamber [proloculus, set_aperture_out ⟨1, ⟨2, 0⟩, some ⟨1, 0⟩⟩ ⟨1, 0⟩]
      ⟨1, 0⟩ := by
  rw [in_chamber_pair, proloculus_centre, proloculus_radius]
  rw [show (set_aperture_out ⟨1, ⟨2, 0⟩, some ⟨1, 0⟩⟩ ⟨1, 0⟩).centre =
    (⟨2, 0⟩ : Pt) from rfl]
  rw [show (set_aperture_out ⟨1, ⟨2, 0⟩, some ⟨1, 0⟩⟩ ⟨1, 0⟩).radius =
    (1 : ℝ) from rfl]
  rw [pnorm_sub_xaxis, pnorm_sub_xaxis]
  norm_num

lemma in_pair_run3 :
    in_chamber [proloculus, set_aperture_out ⟨1, ⟨2, 0⟩, some ⟨1, 0⟩⟩ ⟨1, 0⟩]
      ⟨2, 0⟩ := by
  rw [in_chamber_pair]
  right
  rw [show (set_aperture_out ⟨1, ⟨2, 0⟩, some ⟨1, 0⟩⟩ ⟨1, 0⟩).centre =
    (⟨2, 0⟩ : Pt) from rfl]
  rw [show (set_aperture_out ⟨1, ⟨2, 0⟩, some ⟨1, 0⟩⟩ ⟨1, 0⟩).radius =
    (1 : ℝ) from rfl]
  rw [pnorm_sub_xaxis]
  norm_num

lemma collect_run3 :
    collectPoints [proloculus, set_aperture_out ⟨1, ⟨2, 0⟩, some ⟨1, 0⟩⟩ ⟨1, 0⟩]
      ⟨1, ⟨2, 0⟩, some ⟨1, 0⟩⟩
      [proloculus, set_aperture_out ⟨1, ⟨2, 0⟩, some ⟨1, 0⟩⟩ ⟨1, 0⟩] =
      .ok [⟨1, 0⟩, ⟨1, 0⟩] := by
  simp only [collectPoints]
  rw [inter_run2, inter_c1_run3]
  dsimp only
  simp only [if_pos in_pair_run3, if_neg not_in_pair_run3]
  simp

lemma find_run3 :
    find_aperture_out
      [proloculus, set_aperture_out ⟨1, ⟨2, 0⟩, some ⟨1, 0⟩⟩ ⟨1, 0⟩]
      ⟨1, ⟨2, 0⟩, some ⟨1, 0⟩⟩ = .ok ⟨1, 0⟩ := by
  unfold find_aperture_out
  rw [collect_run3]
  dsimp only
  rw [show entryOf ⟨1, ⟨2, 0⟩, some ⟨1, 0⟩⟩ = (⟨1, 0⟩ : Pt) from rfl]
  rw [sortedByEntry_pair]

lemma step_run3 :
    growStep (mkForam 2 1 1 0)
      [proloculus, set_aperture_out ⟨1, ⟨2, 0⟩, some ⟨1, 0⟩⟩ ⟨1, 0⟩] proloculus =
      .ok (set_aperture_out ⟨1, ⟨2, 0⟩, some ⟨1, 0⟩⟩ ⟨1, 0⟩) := by
  unfold growStep
  rw [cand_run2, find_run3]

lemma second_call_run3 :
    make_foram (mkForam 2 1 1 0)
      [proloculus, set_aperture_out ⟨1, ⟨2, 0⟩, some ⟨1, 0⟩⟩ ⟨1, 0⟩] =
      .completed [proloculus, set_aperture_out ⟨1, ⟨2, 0⟩, some ⟨1, 0⟩⟩ ⟨1, 0⟩,
        set_aperture_out ⟨1, ⟨2, 0⟩, some ⟨1, 0⟩⟩ ⟨1, 0⟩] := by
  unfold make_foram
  rw [show (mkForam 2 1 1 0).nchambers - 1 = 1 from rfl]
  simp only [growFrom]
  rw [show ([proloculus, set_aperture_out ⟨1, ⟨2, 0⟩, some ⟨1, 0⟩⟩ ⟨1, 0⟩] :
    List Chamber)[1 - 1]? = some proloculus from rfl]
  dsimp only
  rw [step_run3]
  dsimp only
  simp [growFrom]

/-! ### The rotation matrix is built from the unconverted angle -/

lemma sin_180_ne_zero : Real.sin 180 ≠ 0 := by
  intro h
  obtain ⟨n, hn⟩ := Real.sin_eq_zero_iff.mp h
  have hn0 : n ≠ 0 := by
    rintro rfl
    norm_num at hn
  have hpi : Real.pi = ((180 / n : ℚ) : ℝ) := by
    push_cast
    field_simp at hn ⊢
    linarith
  exact Rat.not_irrational _ (hpi ▸ irrational_pi)

/-! ### Further helpers for the formula and symmetry claims -/

lemma pnorm_smul (t : ℝ) (v : Pt) : pnorm (t • v) = |t| * pnorm v := by
  unfold pnorm
  simp only [Pt.smul_x, Pt.smul_y]
  rw [show (t * v.x) ^ 2 + (t * v.y) ^ 2 = t ^ 2 * (v.x ^ 2 + v.y ^ 2) by ring,
    Real.sqrt_mul (sq_nonneg t), Real.sqrt_sq_eq_abs]

/-- The two unit circles centred at `(0,0)` and `(1,0)` intersect in
`(1/2, ±√3/2)`. -/
lemma inter_unit_circles :
    intersection ⟨1, ⟨0, 0⟩, none⟩ ⟨1, ⟨1, 0⟩, none⟩ =
      .pts ⟨1 / 2, Real.sqrt 3 / 2⟩ ⟨1 / 2, -(Real.sqrt 3 / 2)⟩ := by
  have hs : Real.sqrt ((1 : ℝ) ^ 2 - (1 / 2 : ℝ) ^ 2) = Real.sqrt 3 / 2 := by
    have h3 : (Real.sqrt 3 / 2) ^ 2 = 3 / 4 := by
      rw [div_pow, Real.sq_sqrt (by norm_num : (0 : ℝ) ≤ 3)]
      norm_num
    rw [show (1 : ℝ) ^ 2 - (1 / 2 : ℝ) ^ 2 = 3 / 4 by norm_num, ← h3]
    exact Real.sqrt_sq (by positivity)
  have h := intersection_xaxis ⟨1, ⟨0, 0⟩, none⟩
    ⟨1, ⟨1, 0⟩, none⟩ 0 1 1 1 1 (1 / 2) (Real.sqrt 3 / 2) rfl rfl rfl rfl
    (by norm_num) (by norm_num) (by norm_num) (by norm_num) hs
  rw [h]
  congr 1 <;> ext <;> norm_num

lemma intersection_eq_disjoint_iff {A B : Chamber0} :
    intersection A B = .disjoint ↔ dCent A B > A.radius + B.radius := by
  constructor
  · intro h
    by_contra h1
    by_cases h2 : dCent A B < |A.radius - B.radius|
    · rw [intersection_of_contained h1 h2] at h
      exact absurd h (by simp)
    · rw [intersection_of_pts h1 h2] at h
      exact absurd h (by simp)
  · exact intersection_of_disjoint

lemma intersection_eq_contained_iff {A B : Chamber0} :
    intersection A B = .contained ↔
      ¬ dCent A B > A.radius + B.radius ∧ dCent A B < |A.radius - B.radius| := by
  constructor
  · intro h
    by_cases h1 : dCent A B > A.radius + B.radius
    · rw [intersection_of_disjoint h1] at h
      exact absurd h (by simp)
    by_cases h2 : dCent A B < |A.radius - B.radius|
    · exact ⟨h1, h2⟩
    · rw [intersection_of_pts h1 h2] at h
      exact absurd h (by simp)
  · intro ⟨h1, h2⟩
    exact intersection_of_contained h1 h2

lemma dCent_symm (A B : Chamber0) : dCent B A = dCent A B := by
  unfold dCent pnorm
  congr 1
  simp only [Pt.sub_x, Pt.sub_y]
  ring

/-- The `aChord` values of the two argument orders sum to the distance
(when the centres are distinct). -/
lemma aChord_symm {A B : Chamber0} (hd : dCent A B ≠ 0) :
    aChord B A = dCent A B - aChord A B := by
  unfold aChord
  rw [dCent_symm]
  field_simp
  ring

lemma hChord_symm {A B : Chamber0} (hd : dCent A B ≠ 0) :
    hChord B A = hChord A B := by
  unfold hChord
  rw [aChord_symm hd]
  congr 1
  have haO : aChord A B * (2 * dCent A B) =
      dCent A B ^ 2 + A.radius ^ 2 - B.radius ^ 2 := by
    unfold aChord
    rw [div_div]
    field_simp
  nlinarith [haO]

lemma baseP_symm {A B : Chamber0} (hd : dCent A B ≠ 0) :
    baseP B A = baseP A B := by
  unfold baseP
  rw [aChord_symm hd, dCent_symm A B]
  ext <;> simp <;> field_simp <;> ring

lemma wOff_symm {A B : Chamber0} (hd : dCent A B ≠ 0) :
    wOff B A = Pt.mk (-(wOff A B).x) (-(wOff A B).y) := by
  unfold wOff
  rw [hChord_symm hd, dCent_symm A B]
  ext <;> simp <;> ring

/-- Swapping the arguments of `intersection` in the two-point case
returns the same two points in swapped order. -/
lemma intersection_pts_swap {A B : Chamber0} {p q : Pt}
    (h : intersection A B = .pts p q) : intersection B A = .pts q p := by
  obtain ⟨h1, h2, hp, hq⟩ := eq_of_intersection_pts h
  have hd : dCent B A = dCent A B := dCent_symm A B
  have hB1 : ¬ dCent B A > B.radius + A.radius := by
    rw [hd, add_comm]
    exact h1
  have hB2 : ¬ dCent B A < |B.radius - A.radius| := by
    rw [hd, abs_sub_comm]
    exact h2
  rw [intersection_of_pts hB1 hB2]
  by_cases hd0 : dCent A B = 0
  · have hd0' : pnorm (B.centre - A.centre) = 0 := hd0
    have hx : B.centre.x - A.centre.x = 0 := (pnorm_eq_zero hd0').1
    have hy : B.centre.y - A.centre.y = 0 := (pnorm_eq_zero hd0').2
    have hABc : B.centre = A.centre := by
      ext
      · linarith
      · linarith
    have h0AB := pts_eq_centre_of_dCent_zero h hd0
    have hd0BA : dCent B A = 0 := by
      rw [hd]
      exact hd0
    have h0BA := pts_eq_centre_of_dCent_zero (intersection_of_pts hB1 hB2) hd0BA
    rw [h0BA.1, h0BA.2, hABc, h0AB.1, h0AB.2]
  · rw [baseP_symm hd0, wOff_symm hd0, hp, hq]
    congr 1 <;> ext <;> simp

/-! ## The claims -/

/-- C1 (code bug): the spec says the builder converts the
degrees argument to radians and rotates by that radians value each step,
and indeed `__init__` stores `np.radians(DeltaPhi)`; but the rotation
matrix `self.rot` is built from the raw degrees argument instead, so for
`DeltaPhi = 180` the stored matrix is not the rotation by the stored
radians value `π`. -/
theorem c1_rotation_matrix_ignores_radians :
    (mkForam 2 1 1 180).rot ≠ rotMat ((mkForam 2 1 1 180).DeltaPhi) := by
  rw [mkForam_rot, mkForam_DeltaPhi]
  rw [show (180 : ℝ) * (Real.pi / 180) = Real.pi by ring]
  intro h
  have hc : Real.sin 180 = Real.sin Real.pi := congrArg Mat2.c h
  rw [Real.sin_pi] at hc
  exact sin_180_ne_zero hc

/-- C2 (confirmed): if the intersection query against any previously
placed chamber signals infeasible (`ValueError`), the growth loop breaks
at this step: chamber `i` is not appended, no error reaches the caller,
no further steps run and the chamber list is exactly as it was. -/
theorem c2_infeasible_stops_growth (f : Foram) (fuel i : ℕ)
    (cs : List Chamber) (last : Chamber)
    (hlast : cs[i - 1]? = some last)
    (hinf : ∃ c ∈ cs,
      intersection c.toChamber0 (candidateOf f last) = .contained) :
    growFrom f (fuel + 1) i cs = .stopped cs :=
  growFrom_stopped hlast hinf

/-- Witness for C2: `Foram(2, 10, 0, 0)` hits an infeasible candidate at
step 1 (the candidate of radius 10 contains the proloculus) and growth
stops with only the proloculus. -/
theorem c2_witness : grow (mkForam 2 10 0 0) = .stopped [proloculus] := by
  have h := c2_infeasible_stops_growth (mkForam 2 10 0 0) 0 1 [proloculus]
    proloculus rfl
    ⟨proloculus, by simp, by rw [cand_run1]; exact inter_run1⟩
  unfold grow make_foram
  rw [mkForam_nchambers]
  exact h

/-- C3 (confirmed): the circle-circle intersection follows the distance
trichotomy with the stated formulas (`a = (d² + r0² - r1²) / (2d)`,
`h = sqrt(r0² - a²)`, `base = P0 + (a/d)(P1 - P0)`, `W` the perpendicular
offset of length `h` obtained by rotating `P1 - P0` by 90 degrees and
scaling), and the two unit circles centred at `(0,0)` and `(1,0)` meet
in `(1/2, ±√3/2)`. -/
theorem c3_intersection_cases :
    (∀ A B : Chamber0,
      aChord A B =
        (dCent A B ^ 2 + A.radius ^ 2 - B.radius ^ 2) / (2 * dCent A B) ∧
      (dCent A B > A.radius + B.radius → intersection A B = .disjoint) ∧
      (¬ dCent A B > A.radius + B.radius →
        dCent A B < |A.radius - B.radius| → intersection A B = .contained) ∧
      (¬ dCent A B > A.radius + B.radius →
        ¬ dCent A B < |A.radius - B.radius| →
          intersection A B =
            .pts (baseP A B + wOff A B) (baseP A B - wOff A B) ∧
          wOff A B = (hChord A B / dCent A B) •
            Pt.mk (-((B.centre - A.centre).y)) ((B.centre - A.centre).x) ∧
          (dCent A B ≠ 0 → pnorm (wOff A B) = hChord A B))) ∧
    intersection ⟨1, ⟨0, 0⟩, none⟩ ⟨1, ⟨1, 0⟩, none⟩ =
      .pts ⟨1 / 2, Real.sqrt 3 / 2⟩ ⟨1 / 2, -(Real.sqrt 3 / 2)⟩ := by
  constructor
  · intro A B
    refine ⟨?_, intersection_of_disjoint, intersection_of_contained, ?_⟩
    · unfold aChord
      rw [div_div]
    · intro h1 h2
      refine ⟨intersection_of_pts h1 h2, ?_, ?_⟩
      · unfold wOff
        congr 1
        ext <;> simp
      · intro hdne
        have hdpos : 0 < dCent A B :=
          lt_of_le_of_ne (pnorm_nonneg _) (Ne.symm hdne)
        have hvec : pnorm (Pt.mk (A.centre.y - B.centre.y)
            (B.centre.x - A.centre.x)) = dCent A B := by
          unfold dCent pnorm
          congr 1
          simp only [Pt.sub_x, Pt.sub_y]
          ring
        have hh0 : (0 : ℝ) ≤ hChord A B := Real.sqrt_nonneg _
        unfold wOff
        rw [pnorm_smul, hvec, abs_div, abs_of_nonneg hh0, abs_of_pos hdpos]
        field_simp
  · exact inter_unit_circles

/-- Witness for C3: two unit circles centred at `(0,0)` and `(10,0)` are
disjoint, by the first branch of the trichotomy. -/
theorem c3_witness :
    intersection ⟨1, ⟨0, 0⟩, none⟩ ⟨1, ⟨10, 0⟩, none⟩ = .disjoint := by
  have hd : dCent (⟨1, ⟨0, 0⟩, none⟩ : Chamber0) ⟨1, ⟨10, 0⟩, none⟩ = 10 := by
    unfold dCent
    rw [show ((⟨1, ⟨10, 0⟩, none⟩ : Chamber0).centre) = Pt.mk 10 0 from rfl,
      show ((⟨1, ⟨0, 0⟩, none⟩ : Chamber0).centre) = Pt.mk 0 0 from rfl,
      pnorm_sub_xaxis]
    norm_num
  exact (c3_intersection_cases.1 ⟨1, ⟨0, 0⟩, none⟩ ⟨1, ⟨10, 0⟩, none⟩).2.1
    (by rw [hd]; show (10 : ℝ) > 1 + 1; norm_num)

/-- Counterexample to C4 as stated: for `Foram(2, 2, 0, 0)` growth
completes with two chambers, and the proloculus's exit aperture `(1,0)`
lies strictly inside the open interior of the chamber appended after it
(distance 0 from its centre, well below `0.999` times its radius 2). -/
theorem c4_counterexample :
    grow (mkForam 2 2 0 0) =
      .completed [proloculus,
        set_aperture_out ⟨2, ⟨1, 0⟩, some ⟨1, 0⟩⟩ ⟨-1, 0⟩] ∧
    pnorm (proloculus.aperture_out -
        (set_aperture_out ⟨2, ⟨1, 0⟩, some ⟨1, 0⟩⟩ ⟨-1, 0⟩).centre) <
      (set_aperture_out ⟨2, ⟨1, 0⟩, some ⟨1, 0⟩⟩ ⟨-1, 0⟩).radius * 0.999 := by
  refine ⟨grow_run5, ?_⟩
  rw [proloculus_aperture_out,
    show (set_aperture_out ⟨2, ⟨1, 0⟩, some ⟨1, 0⟩⟩ ⟨-1, 0⟩).centre =
      (⟨1, 0⟩ : Pt) from rfl,
    show (set_aperture_out ⟨2, ⟨1, 0⟩, some ⟨1, 0⟩⟩ ⟨-1, 0⟩).radius =
      (2 : ℝ) from rfl,
    pnorm_sub_xaxis]
  norm_num

/-- C4 as amended (proved): for positive growth ratio, after `grow`
every chamber's exit aperture lies at distance exactly its radius from
its centre, and each chamber's exit aperture is outside the open
interior (shrunk by the `0.999` factor) of every chamber placed before
it — not of the chambers placed after it. -/
theorem c4_exit_apertures (f : Foram) (hGF : 0 < f.GF) :
    (∀ c ∈ chambersOf (grow f), pnorm (c.aperture_out - c.centre) = c.radius) ∧
      (chambersOf (grow f)).Pairwise clearOf := by
  have base1 : ∀ c ∈ ([proloculus] : List Chamber),
      0 < c.radius ∧ exitOnCircle c := by
    intro c hc
    simp only [List.mem_singleton] at hc
    subst hc
    refine ⟨by rw [proloculus_radius]; norm_num, ?_⟩
    unfold exitOnCircle
    rw [proloculus_aperture_out, proloculus_centre, proloculus_radius,
      pnorm_sub_xaxis]
    norm_num
  have base2 : ([proloculus] : List Chamber).Pairwise clearOf :=
    List.pairwise_singleton _ _
  have h := growFrom_inv hGF (f.nchambers - 1) 1 [proloculus] base1 base2
  unfold grow make_foram
  exact ⟨fun c hc => (h.1 c hc).2, h.2⟩

/-- Witness for C4 (amended): the parameter set `(1, 2, 0, 0)` has
positive growth ratio; its grown shell (just the proloculus) satisfies
the exit-aperture invariant. -/
theorem c4_witness :
    (∀ c ∈ chambersOf (grow (mkForam 1 2 0 0)),
      pnorm (c.aperture_out - c.centre) = c.radius) ∧
      (chambersOf (grow (mkForam 1 2 0 0))).Pairwise clearOf :=
  c4_exit_apertures (mkForam 1 2 0 0) (by rw [mkForam_GF]; norm_num)

/-- C5 (confirmed): every chamber appended by a growth step satisfies
the recurrence: radius `GF` times the previous radius, centre the
previous exit aperture displaced by `TF` times the rotated previous
exit-offset, and entry aperture equal to the previous exit aperture. -/
theorem c5_growth_recurrence (f : Foram) (cs : List Chamber)
    (last c : Chamber) (h : growStep f cs last = .ok c) :
    c.radius = f.GF * last.radius ∧
      c.centre = last.aperture_out + f.TF • f.rot.mulVec last.r ∧
      c.aperture_in = some last.aperture_out := by
  obtain ⟨p, -, hc⟩ := growStep_ok_inv h
  subst hc
  exact ⟨rfl, rfl, rfl⟩

/-- Witness for C5: the chamber appended at step 1 of `Foram(2, 1, 1, 0)`
satisfies the recurrence. -/
theorem c5_witness :
    (set_aperture_out ⟨1, ⟨2, 0⟩, some ⟨1, 0⟩⟩ ⟨1, 0⟩).radius =
        (mkForam 2 1 1 0).GF * proloculus.radius ∧
      (set_aperture_out ⟨1, ⟨2, 0⟩, some ⟨1, 0⟩⟩ ⟨1, 0⟩).centre =
        proloculus.aperture_out +
          (mkForam 2 1 1 0).TF • (mkForam 2 1 1 0).rot.mulVec proloculus.r ∧
      (set_aperture_out ⟨1, ⟨2, 0⟩, some ⟨1, 0⟩⟩ ⟨1, 0⟩).aperture_in =
        some proloculus.aperture_out :=
  c5_growth_recurrence (mkForam 2 1 1 0) [proloculus] proloculus _ step_run2

/-- Counterexample to C6 as stated: for `Foram(2, 1, 3, 0)` the step-1
candidate is disjoint from every existing chamber, no chamber signals
infeasible, and `grow` does NOT return normally: the `IndexError` from
`intersections[0]` escapes to the caller. -/
theorem c6_counterexample : grow (mkForam 2 1 3 0) = .raised [proloculus] := by
  unfold grow make_foram
  rw [mkForam_nchambers]
  exact growFrom_raised proloculus rfl
    (by rw [cand_run4]; exact find_run4)

/-- C6 as amended (proved): when no candidate point survives (empty
selection, the `IndexError` outcome of aperture resolution) the loop
terminates by propagating that error to the caller; chamber `i` is not
appended and chambers `0..i-1` are retained in the builder. -/
theorem c6_empty_selection_raises (f : Foram) (fuel i : ℕ)
    (cs : List Chamber) (last : Chamber)
    (hlast : cs[i - 1]? = some last)
    (hfind : find_aperture_out cs (candidateOf f last) = .error .indexError) :
    growFrom f (fuel + 1) i cs = .raised cs :=
  growFrom_raised last hlast hfind

/-- Witness for C6 (amended): the `Foram(2, 1, 3, 0)` loop raises at
step 1, keeping the proloculus. -/
theorem c6_witness :
    growFrom (mkForam 2 1 3 0) 1 1 [proloculus] = .raised [proloculus] :=
  c6_empty_selection_raises (mkForam 2 1 3 0) 0 1 [proloculus] proloculus rfl
    (by rw [cand_run4]; exact find_run4)

/-- Counterexample to C7 as stated: `Foram(2, 1, 1, 0)` grows to two
chambers; calling `make_foram` again on that builder silently appends a
third chamber (a duplicate of chamber 1), so the second call is neither
a no-op nor an error. -/
theorem c7_counterexample :
    grow (mkForam 2 1 1 0) =
      .completed [proloculus,
        set_aperture_out ⟨1, ⟨2, 0⟩, some ⟨1, 0⟩⟩ ⟨1, 0⟩] ∧
    make_foram (mkForam 2 1 1 0)
        [proloculus, set_aperture_out ⟨1, ⟨2, 0⟩, some ⟨1, 0⟩⟩ ⟨1, 0⟩] =
      .completed [proloculus,
        set_aperture_out ⟨1, ⟨2, 0⟩, some ⟨1, 0⟩⟩ ⟨1, 0⟩,
        set_aperture_out ⟨1, ⟨2, 0⟩, some ⟨1, 0⟩⟩ ⟨1, 0⟩] :=
  ⟨grow_run2, second_call_run3⟩

/-- C7 as amended (proved): `make_foram` has no idempotent guard; a
repeated call re-runs the loop over the existing list and can only
append to it — the prior chamber list is always a prefix of the result,
with any further chambers appended after it. -/
theorem c7_regrow_extends (f : Foram) (cs : List Chamber) :
    ∃ tl, chambersOf (make_foram f cs) = cs ++ tl :=
  growFrom_extends f (f.nchambers - 1) 1 cs

/-- C8 (confirmed): when aperture resolution succeeds, the returned
point is one of the collected intersection points; a point contributed
by some chamber's intersection query is collected if and only if it is
not strictly inside any existing chamber (distance below `0.999` times
that chamber's radius); every collected point arises from some chamber's
intersection query; and the returned point minimizes the distance to the
candidate's entry aperture among all collected points. -/
theorem c8_aperture_choice (cs : List Chamber) (cand : Chamber0) (p : Pt)
    (h : find_aperture_out cs cand = .ok p) :
    ∃ ps, collectPoints cs cand cs = .ok ps ∧
      p ∈ ps ∧
      (∀ q ∈ ps, pnorm (entryOf cand - p) ≤ pnorm (entryOf cand - q)) ∧
      (∀ c ∈ cs, ∀ p' q', intersection c.toChamber0 cand = .pts p' q' →
        ((p' ∈ ps ↔ ¬ in_chamber cs p') ∧ (q' ∈ ps ↔ ¬ in_chamber cs q'))) ∧
      (∀ q ∈ ps, ∃ c ∈ cs, ∃ p' q',
        intersection c.toChamber0 cand = .pts p' q' ∧ (q = p' ∨ q = q')) := by
  obtain ⟨ps, hcol, hmem, hmin⟩ := find_aperture_out_ok h
  refine ⟨ps, hcol, hmem, hmin, ?_, ?_⟩
  · intro c hc p' q' hi
    have hcomp := collectPoints_complete hcol c hc p' q' hi
    constructor
    · constructor
      · intro hp'
        exact (mem_of_collectPoints hcol p' hp').1
      · exact hcomp.1
    · constructor
      · intro hq'
        exact (mem_of_collectPoints hcol q' hq').1
      · exact hcomp.2
  · intro q hq
    exact (mem_of_collectPoints hcol q hq).2

/-- Witness for C8: step 1 of `Foram(2, 1, 1, 0)` resolves the aperture
`(1, 0)`, which satisfies all the stated properties. -/
theorem c8_witness :
    ∃ ps, collectPoints [proloculus] ⟨1, ⟨2, 0⟩, some ⟨1, 0⟩⟩ [proloculus] =
        .ok ps ∧
      (⟨1, 0⟩ : Pt) ∈ ps ∧
      (∀ q ∈ ps, pnorm (entryOf ⟨1, ⟨2, 0⟩, some ⟨1, 0⟩⟩ - ⟨1, 0⟩) ≤
        pnorm (entryOf ⟨1, ⟨2, 0⟩, some ⟨1, 0⟩⟩ - q)) ∧
      (∀ c ∈ ([proloculus] : List Chamber), ∀ p' q',
        intersection c.toChamber0 ⟨1, ⟨2, 0⟩, some ⟨1, 0⟩⟩ = .pts p' q' →
        ((p' ∈ ps ↔ ¬ in_chamber [proloculus] p') ∧
          (q' ∈ ps ↔ ¬ in_chamber [proloculus] q'))) ∧
      (∀ q ∈ ps, ∃ c ∈ ([proloculus] : List Chamber), ∃ p' q',
        intersection c.toChamber0 ⟨1, ⟨2, 0⟩, some ⟨1, 0⟩⟩ = .pts p' q' ∧
          (q = p' ∨ q = q')) :=
  c8_aperture_choice [proloculus] ⟨1, ⟨2, 0⟩, some ⟨1, 0⟩⟩ ⟨1, 0⟩ find_run2

/-- Counterexample to C9 as stated: for `target_count = 0` the builder
still holds the seed proloculus, the loop runs zero iterations
(a completed run), and the realized count 1 exceeds `target_count`. -/
theorem c9_counterexample :
    grow (mkForam 0 1 1 0) = .completed [proloculus] ∧
    ¬ (chambersOf (grow (mkForam 0 1 1 0))).length ≤
        (mkForam 0 1 1 0).nchambers := by
  have h : grow (mkForam 0 1 1 0) = .completed [proloculus] := by
    unfold grow make_foram
    rw [mkForam_nchambers]
    rfl
  refine ⟨h, ?_⟩
  rw [h, mkForam_nchambers]
  simp [chambersOf]

/-- C9 as amended (proved): for `target_count ≥ 1` the realized count
after `grow` is at most `target_count`, with equality exactly for a
completed run; a run that stopped early or raised ends strictly
below `target_count`. -/
theorem c9_realized_count (f : Foram) (hn : 1 ≤ f.nchambers) :
    (chambersOf (grow f)).length ≤ f.nchambers ∧
      (∀ L, grow f = .completed L → L.length = f.nchambers) ∧
      (∀ L, grow f = .stopped L → L.length < f.nchambers) ∧
      (∀ L, grow f = .raised L → L.length < f.nchambers) := by
  have h := growFrom_length f (f.nchambers - 1) 1 [proloculus]
    (by simp) (le_refl 1)
  have harith : 1 + (f.nchambers - 1) = f.nchambers := by omega
  rw [harith] at h
  unfold grow make_foram
  refine ⟨?_, h.1, h.2.1, h.2.2⟩
  rcases ho : growFrom f (f.nchambers - 1) 1 [proloculus] with L | L | L
  · exact le_of_eq (h.1 L ho)
  · exact le_of_lt (h.2.1 L ho)
  · exact le_of_lt (h.2.2 L ho)

/-- Witness for C9 (amended): `Foram(1, 1, 1, 0)` has
`target_count = 1 ≥ 1` and satisfies the count bounds. -/
theorem c9_witness :
    (chambersOf (grow (mkForam 1 1 1 0))).length ≤
        (mkForam 1 1 1 0).nchambers ∧
      (∀ L, grow (mkForam 1 1 1 0) = .completed L →
        L.length = (mkForam 1 1 1 0).nchambers) ∧
      (∀ L, grow (mkForam 1 1 1 0) = .stopped L →
        L.length < (mkForam 1 1 1 0).nchambers) ∧
      (∀ L, grow (mkForam 1 1 1 0) = .raised L →
        L.length < (mkForam 1 1 1 0).nchambers) :=
  c9_realized_count (mkForam 1 1 1 0) (by rw [mkForam_nchambers])

/-- C10 (confirmed): the intersection classification is symmetric in the
two chambers, and in the two-point case swapping the arguments returns
the same unordered pair (the two points in swapped order). -/
theorem c10_intersection_symm (A B : Chamber0) :
    (intersection A B = .disjoint ↔ intersection B A = .disjoint) ∧
      (intersection A B = .contained ↔ intersection B A = .contained) ∧
      (∀ p q, intersection A B = .pts p q → intersection B A = .pts q p) := by
  have hd : dCent B A = dCent A B := dCent_symm A B
  refine ⟨?_, ?_, fun p q h => intersection_pts_swap h⟩
  · rw [intersection_eq_disjoint_iff, intersection_eq_disjoint_iff, hd,
      add_comm B.radius A.radius]
  · rw [intersection_eq_contained_iff, intersection_eq_contained_iff, hd,
      add_comm B.radius A.radius, abs_sub_comm B.radius A.radius]

/-- Witness for C10: swapping the two unit circles swaps the two
intersection points `(1/2, ±√3/2)`. -/
theorem c10_witness :
    intersection ⟨1, ⟨1, 0⟩, none⟩ ⟨1, ⟨0, 0⟩, none⟩ =
      .pts ⟨1 / 2, -(Real.sqrt 3 / 2)⟩ ⟨1 / 2, Real.sqrt 3 / 2⟩ :=
  (c10_intersection_symm ⟨1, ⟨0, 0⟩, none⟩ ⟨1, ⟨1, 0⟩, none⟩).2.2 _ _
    inter_unit_circles

end Foraminifera
